import Mathlib

/-!
Verification of `biliparser.py` (telegram-bili-feed-helper).

Shallow embedding: Python strings are modelled as `List Char`; the regex
substitutions used by the source are modelled by equivalent recursive
scanners; stateful memoization (`functools.cached_property`,
`functools.lru_cache`) is modelled by an explicit world state with a step
function over operations.
-/


namespace Bili


/-- Python `str.strip()` whitespace set (ASCII part, which is all the code
relies on): space, tab, newline, carriage return, vertical tab, form feed. -/
def isSpaceChar (c : Char) : Bool :=
  c = ' ' || c = '\t' || c = '\n' || c = '\r' || c = '\x0b' || c = '\x0c'


/-- Python `text.strip()`: drop whitespace from both ends. -/
def pythonStrip (l : List Char) : List Char :=
  ((l.dropWhile isSpaceChar).reverse.dropWhile isSpaceChar).reverse


/-- Model of `re.sub(r"\r\n", r"\n", text)` (src line 85): every occurrence
of the two-character sequence CR LF is replaced by LF, scanning left to
right without overlap. -/
def replaceCRLF : List Char → List Char
  | [] => []
  | [c] => [c]
  | c1 :: c2 :: rest =>
    if c1 = '\r' ∧ c2 = '\n' then '\n' :: replaceCRLF rest
    else c1 :: replaceCRLF (c2 :: rest)


/-- Helper for `collapseNL`: the boolean records whether we are inside a run
of newlines whose single replacement `'\n'` has already been emitted. -/
def collapseAux : Bool → List Char → List Char
  | _, [] => []
  | b, c :: rest =>
    if c = '\n' then
      if b then collapseAux true rest else '\n' :: collapseAux true rest
    else c :: collapseAux false rest


/-- Model of `re.sub(r"\n*\n", r"\n", text)` (src line 85): each maximal run
of newlines is replaced by a single newline. -/
def collapseNL (l : List Char) : List Char := collapseAux false l


/-- `feed.shrink_line` (src lines 82-88):
`re.sub(r"\n*\n", r"\n", re.sub(r"\r\n", r"\n", text.strip())) if text else ""`. -/
def shrink_line (l : List Char) : List Char :=
  if l = [] then [] else collapseNL (replaceCRLF (pythonStrip l))


/-- The reserved character class of `escape_markdown`
(src line 42): `([_*\[\]()~`>\#\+\-=|{}\.!\\])`. -/
def reservedChars : List Char := "_*[]()~`>#+-=|{}.!\\".toList


/-- Membership in the reserved markdown character class. -/
def isReserved (c : Char) : Bool := c ∈ reservedChars


/-- Partial model of Python's stdlib `html.unescape` (called by
`escape_markdown`, src line 42): HTML entities are decoded; we model the
named entities `&gt;`, `&lt;`, `&amp;` and leave every other character
(in particular every string without `&`) unchanged, which matches the
stdlib behaviour on that fragment. -/
def html_unescape : List Char → List Char
  | [] => []
  | c :: rest =>
    if c = '&' then
      match rest with
      | 'g' :: 't' :: ';' :: r2 => '>' :: html_unescape r2
      | 'l' :: 't' :: ';' :: r2 => '<' :: html_unescape r2
      | 'a' :: 'm' :: 'p' :: ';' :: r2 => '&' :: html_unescape r2
      | r => c :: html_unescape r
    else c :: html_unescape rest


/-- Model of `re.sub(r"([_*\[\]()~`>\#\+\-=|{}\.!\\])", r"\\\1", text)`
(src line 42): each reserved character is prefixed with one backslash. -/
def escapeReserved : List Char → List Char
  | [] => []
  | c :: rest =>
    if isReserved c then '\\' :: c :: escapeReserved rest
    else c :: escapeReserved rest


/-- `escape_markdown` (src lines 40-45): the regex substitution applied to
`html.unescape(text)` when `text` is truthy, else the empty string. -/
def escape_markdown (l : List Char) : List Char :=
  if l = [] then [] else escapeReserved (html_unescape l)


/-- Python `s.endswith("\n")`: whether the last character is a newline. -/
def endsNL : List Char → Bool
  | [] => false
  | [c] => c = '\n'
  | _ :: rest => endsNL rest


/-- Whether the list contains two consecutive newline characters. -/
def hasDoubleNL : List Char → Bool
  | [] => false
  | [_] => false
  | a :: b :: rest => (a = '\n' && b = '\n') || hasDoubleNL (b :: rest)


/-- `feed.content` derived value (src lines 94-97): `shrink_line(self.__content)`. -/
def content_of (raw : List Char) : List Char := shrink_line raw


/-- The body of `feed.content_markdown` (src lines 103-110) as a function
of the value read from `self.content`: escape it, append a newline when
one is missing, and shrink again. -/
def cmFromContent (c : List Char) : List Char :=
  let cm := escape_markdown c
  let cm := if endsNL cm then cm else cm ++ ['\n']
  shrink_line cm


/-- `feed.content_markdown` (src lines 103-110) as a function of the raw
backing content. -/
def content_markdown_of (raw : List Char) : List Char :=
  cmFromContent (content_of raw)


/-- Model of regex `\w` (src line 153): a word character. The source URLs
are ASCII, so we model the ASCII fragment: letters, digits, underscore. -/
def isWordChar (c : Char) : Bool := c.isAlphanum || c = '_'


/-- Model of the anchor `(?:$|\?)` (src line 153): end of string or a
question mark. -/
def atEndOrQ : List Char → Bool
  | [] => true
  | '?' :: _ => true
  | _ => false


/-- Model of matching `\.\w{3,4}(?:$|\?)` exactly at the head of `l`, with
the greedy `\w{3,4}` preferring four characters over three; returns the
matched ".ext" text. -/
def extAt : List Char → Option (List Char)
  | [] => none
  | c :: rest =>
    if c = '.' then
      if (rest.take 4).length = 4 ∧ (rest.take 4).all isWordChar = true ∧
          atEndOrQ (rest.drop 4) = true then
        some ('.' :: rest.take 4)
      else if (rest.take 3).length = 3 ∧ (rest.take 3).all isWordChar = true ∧
          atEndOrQ (rest.drop 3) = true then
        some ('.' :: rest.take 3)
      else none
    else none


/-- Model of matching `[^\/]*\.\w{3,4}(?:$|\?)` at the head of `T`: the
greedy `[^\/]*` starts from the longest prefix of non-slash characters and
backtracks one character at a time; returns the whole matched group. -/
def segMatch (T : List Char) : Option (List Char) :=
  (List.range ((T.takeWhile (fun c => c ≠ '/')).length + 1)).reverse.findSome?
    (fun k => (extAt (T.drop k)).map (fun e => T.take k ++ e))


/-- Leftmost-match search of `re.search(r"\/([^\/]*\.\w{3,4})(?:$|\?)", url)`
(src line 153): the pattern starts with a literal slash, so scan for the
first slash after which the rest of the pattern matches. -/
def findFilename : List Char → Option (List Char)
  | [] => none
  | c :: rest =>
    if c = '/' then
      match segMatch rest with
      | some g => some g
      | none => findFilename rest
    else findFilename rest


/-- `get_filename` inside `feed.mediafilename` (src lines 152-156): group 1
of the first match, or the empty string when there is no match. -/
def get_filename (url : List Char) : List Char :=
  match findFilename url with
  | some g => g
  | none => []


/-- The `feed.mediaurls` setter (src lines 143-148): a list payload is
stored as given, a scalar is wrapped into a one-element list. -/
def wrapMedia : List Char ⊕ List (List Char) → List (List Char)
  | .inl s => [s]
  | .inr l => l


/-- `feed.mediafilename` (src lines 150-160): the filename of each media
url, or the empty list when no media was set. -/
def mediafilename_of (urls : List (List Char)) : List (List Char) :=
  if urls = [] then [] else urls.map get_filename


/-- The fields of `detailcontent["data"]["card"]["desc"]` that the
`dynamic` feed reads (src lines 181-217 and 408-409): `ty` models
`desc["type"]`, `orig_type` models `desc["orig_type"]` (0 is falsy: no
forward). -/
structure DynDesc where
  ty : Nat
  orig_type : Nat
  dynamic_id : Nat
  rid : Nat
deriving DecidableEq


/-- `dynamic.has_forward` (src lines 181-183): `bool(desc["orig_type"])`. -/
def has_forward (d : DynDesc) : Bool := d.orig_type ≠ 0


/-- `dynamic.forward_type` (src lines 185-187): `desc["type"]`. -/
def forward_type (d : DynDesc) : Nat := d.ty


/-- `dynamic.origin_type` (src lines 189-195): `orig_type` when the update
is a forward, else `forward_type`. -/
def origin_type (d : DynDesc) : Nat :=
  if has_forward d then d.orig_type else forward_type d


/-- `dynamic.reply_type` (src lines 197-210): the if-chain on
`self.forward_type`; a Python function without a matching branch returns
`None`, modelled as `none`. -/
def reply_type (d : DynDesc) : Option Nat :=
  if forward_type d = 2 then some 11
  else if forward_type d = 16 then some 5
  else if forward_type d = 64 then some 12
  else if forward_type d = 256 then some 14
  else if forward_type d = 8 ∨ forward_type d = 512 ∨
      (4000 ≤ forward_type d ∧ forward_type d < 4200) then some 1
  else if forward_type d = 1 ∨ forward_type d = 4 ∨
      (4200 ≤ forward_type d ∧ forward_type d < 4300) ∨
      (2048 ≤ forward_type d ∧ forward_type d < 2100) then some 17
  else none


/-- `dynamic.oid` (src lines 212-217). -/
def oid (d : DynDesc) : Nat :=
  if forward_type d = 1 ∨ forward_type d = 4 ∨
      (4200 ≤ forward_type d ∧ forward_type d < 4300) ∨
      (2048 ≤ forward_type d ∧ forward_type d < 2100) then d.dynamic_id
  else d.rid


/-- The argument pair of the comment-resolver call
`reply_parser(client, f.oid, f.reply_type)` at src line 512, which
`dynamic_parser` performs unconditionally. -/
def replyCall (d : DynDesc) : Nat × Option Nat := (oid d, reply_type d)


/-- Modelled from the spec: the reply-type table in the spec's words,
keyed on `origin_type`, with the kind alphabets taken from the spec's own
dispatch table: video-like (2, 512, 4000–4199) → 1, audio-like (256) → 11,
article-like (64) → 12, live-like (4200–4299) → 14, text/share-like
(1, 4, 2048–2099) → 17. Stated only for comparison with `reply_type`. -/
def spec_reply_type (t : Nat) : Option Nat :=
  if t = 2 ∨ t = 512 ∨ (4000 ≤ t ∧ t < 4200) then some 1
  else if t = 256 then some 11
  else if t = 64 then some 12
  else if 4200 ≤ t ∧ t < 4300 then some 14
  else if t = 1 ∨ t = 4 ∨ (2048 ≤ t ∧ t < 2100) then some 17
  else none


/-- The set of type codes enumerated by some branch of
`dynamic.reply_type` (src lines 197-210). -/
def knownReplyCode (t : Nat) : Bool :=
  (t = 2) || (t = 16) || (t = 64) || (t = 256) || (t = 8) || (t = 512) ||
  ((4000 ≤ t) && (t < 4200)) || (t = 1) || (t = 4) ||
  ((4200 ≤ t) && (t < 4300)) || ((2048 ≤ t) && (t < 2100))


/-- The dispatch alternatives of `dynamic_parser` over `origin_type`
(src lines 440-506), in the source's branch order. -/
inductive Branch
  | music
  | liveRoom
  | videoLike
  | article
  | pic
  | clip
  | word
  | share
  | unknown
deriving DecidableEq


/-- The branch selection of `dynamic_parser` (src lines 440-506) with the
`detail_types_list` sets of src lines 421-437: MUSIC = {256},
VIDEO = {8, 512} ∪ [4000, 4200), LIVE = [4200, 4300), ARTICLE = {64},
PIC = {2}, CLIP = {16}, WORD = {1, 4}, SHARE = [2048, 2100); anything else
falls to the warning branch. -/
def selectBranch (t : Nat) : Branch :=
  if (t = 256) ∨ (t = 8 ∨ t = 512 ∨ (4000 ≤ t ∧ t < 4200)) ∨
      (4200 ≤ t ∧ t < 4300) ∨ (t = 64) then
    if t = 256 then .music
    else if 4200 ≤ t ∧ t < 4300 then .liveRoom
    else if t = 8 ∨ t = 512 ∨ (4000 ≤ t ∧ t < 4200) then .videoLike
    else .article
  else if t = 2 ∨ t = 16 then
    if t = 2 then .pic else .clip
  else if t = 1 ∨ t = 4 then .word
  else if 2048 ≤ t ∧ t < 2100 then .share
  else .unknown


/-- The card fields read by the recursive branches of `dynamic_parser`
(src lines 447-461): `id` models `card.get("id")`, `aid` models
`card.get("aid")`, `roomid` models `card.get("roomid")`, and `new_desc`
models `card.get("new_desc")` (absent key gives `none`, the empty string
is falsy). -/
structure Card where
  new_desc : Option (List Char)
  aid : Nat
  id : Nat
  roomid : Nat
deriving DecidableEq


/-- The recursive sub-resolution performed by `dynamic_parser`
(src lines 446-463): which nested resolver is invoked and with which
embedded identifier (the source builds the url strings
`bilibili.com/audio/au{id}`, `live.bilibili.com/{roomid}`, `b23.tv/av{aid}`
and `bilibili.com/read/cv{id}` from those identifiers). -/
inductive RecAction
  | recurseAudio (id : Nat)
  | recurseLive (roomid : Nat)
  | recurseVideo (aid : Nat)
  | recurseRead (id : Nat)
  | noRecursion
  | warnUnknown
deriving DecidableEq


/-- The recursion decision of `dynamic_parser` as a function of the
origin type and the card (src lines 440-506). -/
def dispatchAction (t : Nat) (c : Card) : RecAction :=
  match selectBranch t with
  | .music => .recurseAudio c.id
  | .liveRoom => .recurseLive c.roomid
  | .videoLike => .recurseVideo c.aid
  | .article => .recurseRead c.id
  | .unknown => .warnUnknown
  | _ => .noRecursion


/-- The content assignment of the video branch (src line 457):
`f.card.get("new_desc") if f.card.get("new_desc") else fu.content` —
`None` and the empty string are falsy. -/
def videoBranchContent (c : Card) (subContent : List Char) : List Char :=
  match c.new_desc with
  | some s => if s = [] then subContent else s
  | none => subContent


/-- The exception classes that can reach `safe_parser`'s handlers
(src lines 336-351): `IntegrityError` (the cache write race),
`ParserException` (the resolvers' own fatal errors), and any other
`Exception` subclass (network or JSON errors). All of them are subclasses
of Python's `Exception`, so the outer `except Exception` catches each. -/
inductive ExcClass
  | integrity
  | parserExc
  | otherExc
deriving DecidableEq


/-- An exception value, carrying its class. -/
structure Exc where
  cls : ExcClass
deriving DecidableEq


/-- Outcome of one attempt of a wrapped resolver body: return normally or
raise an exception. -/
inductive PyResult (α : Type)
  | ok (a : α)
  | exc (e : Exc)
deriving DecidableEq


/-- `safe_parser` (src lines 336-351): the inner `try` runs the body and
on `IntegrityError` re-runs it once; the outer `try` catches any
`Exception` from either attempt and returns the error object as the
function's value. The wrapped body is modelled as a function from the
attempt index to that attempt's outcome. The result type is
`PyResult (α ⊕ Exc)`: `ok` means `inner_function` returned (either the
parsed value or the caught error object), `exc` would mean an exception
escaped to the caller. -/
def safeWrap {α : Type} (f : Nat → PyResult α) : PyResult (α ⊕ Exc) :=
  let inner : PyResult α :=
    match f 0 with
    | .ok a => .ok a
    | .exc e => if e.cls = ExcClass.integrity then f 1 else .exc e
  match inner with
  | .ok a => .ok (Sum.inl a)
  | .exc e => .ok (Sum.inr e)


/-- A concrete wrapped body: the first attempt hits a write conflict, the
retry succeeds with the value 7. -/
def retryBody : Nat → PyResult Nat :=
  fun n => if n = 0 then .exc { cls := ExcClass.integrity } else .ok 7


/-- Whether `pre` is an initial segment of `l` — Python's
`url.startswith(p)`. -/
def startsWith : List Char → List Char → Bool
  | [], _ => true
  | _ :: _, [] => false
  | p :: ps, c :: cs => p = c && startsWith ps cs


/-- The url normalization of `biliparser` (src line 874):
`f"http://{url}" if not url.startswith(("http:", "https:")) else url`. -/
def normalize_url (u : List Char) : List Char :=
  if startsWith "http:".toList u || startsWith "https:".toList u then u
  else "http://".toList ++ u


/-- `biliparser` (src lines 861-897): one `feed_parser` task per input url
in input order, run concurrently by `asyncio.gather`, which returns the
results in task order; each slot holds the safe-wrapped resolver's value —
a populated feed or the returned exception object. The network-dependent
`feed_parser` pipeline is abstracted as a function from the normalized url
to that url's result. -/
def biliparser {α : Type} (resolve : List Char → α ⊕ Exc)
    (urls : List (List Char)) : List (α ⊕ Exc) :=
  urls.map fun u => resolve (normalize_url u)


/-- The per-cache TTL durations (the `timeout` attribute of each cache
model, configured in the imported database module, src lines 18-26),
modelled as one integer duration per cache table. -/
structure CacheTimeouts where
  audio : Int
  bangumi : Int
  dyn : Int
  live : Int
  read : Int
  reply : Int
  video : Int
deriving DecidableEq


/-- The freshness filter of `read_parser`'s cache lookup (src lines
777-780): `Q(created__gte=timezone.now() - audio_cache.timeout)` — the
source filters the read cache with the AUDIO cache's timeout. -/
def read_fresh (t : CacheTimeouts) (now created : Int) : Bool :=
  now - t.audio ≤ created


/-- The freshness filter of the bangumi lookup in `video_parser`
(src lines 632-639): `Q(created__gte=timezone.now() - video_cache.timeout)`
— the source filters the bangumi cache with the VIDEO cache's timeout. -/
def bangumi_fresh (t : CacheTimeouts) (now created : Int) : Bool :=
  now - t.video ≤ created


/-- The freshness filter of `audio_parser` (src lines 522-525), which does
use its own kind's timeout, as do the dynamic, live, video and reply
lookups. -/
def audio_fresh (t : CacheTimeouts) (now created : Int) : Bool :=
  now - t.audio ≤ created


/-- Per-instance state of a `feed` object for the memoization model: the
mutable raw backing fields (`self.__content`, `self.__mediaurls`, src
lines 61-62) and the per-instance `cached_property` slots stored in the
instance dict, modelled for the representative derived fields
`content_markdown` (src 103) and `mediafilename` (src 150). -/
structure FeedMem where
  rawC : List Char
  rawM : List (List Char)
  cmCache : Option (List Char)
  mfCache : Option (List (List Char))
deriving DecidableEq


/-- The world of live feed instances keyed by identity, plus the two
class-level one-slot caches created by `@property @lru_cache(maxsize=1)`
on `feed.content` (src 94-97) and `feed.mediaurls` (src 138-141):
`lru_cache` keys on the `self` argument, and with `maxsize=1` a read
through a *different* instance evicts the stored entry. -/
structure World where
  feeds : List (Nat × FeedMem)
  cSlot : Option (Nat × List Char)
  mSlot : Option (Nat × List (List Char))
deriving DecidableEq


/-- The instance state for identity `i` (default for an unknown id). -/
def getFeed (w : World) (i : Nat) : FeedMem :=
  (w.feeds.lookup i).getD ⟨[], [], none, none⟩


/-- Replace the state of instance `i`. -/
def setFeed (w : World) (i : Nat) (fm : FeedMem) : World :=
  { w with feeds := w.feeds.map fun p => if p.1 = i then (i, fm) else p }


/-- Reading `feed.content` (src 94-97): an `lru_cache(maxsize=1)` keyed by
the instance — a hit returns the stored value, a miss (empty slot or a
slot holding another instance) computes `shrink_line(self.__content)` and
stores it, evicting whatever was in the slot. -/
def readContentRes (w : World) (i : Nat) : List Char × World :=
  match w.cSlot with
  | some (j, v) =>
    if j = i then (v, w)
    else
      let v2 := shrink_line (getFeed w i).rawC
      (v2, { w with cSlot := some (i, v2) })
  | none =>
    let v2 := shrink_line (getFeed w i).rawC
    (v2, { w with cSlot := some (i, v2) })


/-- Reading `feed.mediaurls` (src 138-141): the same `lru_cache(maxsize=1)`
pattern over `self.__mediaurls`. -/
def readMediaRes (w : World) (i : Nat) : List (List Char) × World :=
  match w.mSlot with
  | some (j, v) =>
    if j = i then (v, w)
    else
      let v2 := (getFeed w i).rawM
      (v2, { w with mSlot := some (i, v2) })
  | none =>
    let v2 := (getFeed w i).rawM
    (v2, { w with mSlot := some (i, v2) })


/-- Reading `feed.content_markdown` (src 103-110): a `cached_property`; on
the first read it computes from `self.content` — going through the shared
content slot — and stores the result in the instance dict; later reads
return the stored value. -/
def readCMRes (w : World) (i : Nat) : List Char × World :=
  match (getFeed w i).cmCache with
  | some v => (v, w)
  | none =>
    let cw := readContentRes w i
    let v := cmFromContent cw.1
    (v, setFeed cw.2 i { getFeed cw.2 i with cmCache := some v })


/-- Reading `feed.mediafilename` (src 150-160): a `cached_property`
computed directly from `self.__mediaurls` (not through the `mediaurls`
property). -/
def readMFRes (w : World) (i : Nat) : List (List Char) × World :=
  match (getFeed w i).mfCache with
  | some v => (v, w)
  | none =>
    let v := mediafilename_of (getFeed w i).rawM
    (v, setFeed w i { getFeed w i with mfCache := some v })


/-- The operations the invariant quantifies over: mutate a raw backing
field through its setter, or read a derived field, on any instance. -/
inductive Op
  | setC (i : Nat) (s : List Char)
  | setM (i : Nat) (v : List Char ⊕ List (List Char))
  | readC (i : Nat)
  | readM (i : Nat)
  | readCM (i : Nat)
  | readMF (i : Nat)
deriving DecidableEq


/-- One operation against the world. -/
def step (w : World) : Op → World
  | .setC i s => setFeed w i { getFeed w i with rawC := s }
  | .setM i v => setFeed w i { getFeed w i with rawM := wrapMedia v }
  | .readC i => (readContentRes w i).2
  | .readM i => (readMediaRes w i).2
  | .readCM i => (readCMRes w i).2
  | .readMF i => (readMFRes w i).2


/-- A sequence of operations against the world. -/
def run (w : World) (ops : List Op) : World := ops.foldl step w


/-- Whether the operation reads a derived field of an instance other than
`i`. -/
def foreignRead (i : Nat) : Op → Bool
  | .readC j => j ≠ i
  | .readM j => j ≠ i
  | .readCM j => j ≠ i
  | .readMF j => j ≠ i
  | _ => false


/-- A world with two live feed instances whose raw contents are "a" and
"b". -/
def demoWorld : World :=
  ⟨[(1, ⟨"a".toList, [], none, none⟩), (2, ⟨"b".toList, [], none, none⟩)],
    none, none⟩


theorem endsNL_cons_cons (a b : Char) (t : List Char) :
    endsNL (a :: b :: t) = endsNL (b :: t) := rfl


theorem hasDoubleNL_cons_cons (a b : Char) (t : List Char) :
    hasDoubleNL (a :: b :: t) = ((a = '\n' && b = '\n') || hasDoubleNL (b :: t)) := rfl


theorem collapseAux_true_head (l : List Char) (c : Char) :
    (collapseAux true l).head? = some c → c ≠ '\n' := by
  induction l with
  | nil => simp [collapseAux]
  | cons a rest ih =>
    intro h
    by_cases ha : a = '\n'
    · rw [show collapseAux true (a :: rest) = collapseAux true rest by
        simp [collapseAux, ha]] at h
      exact ih h
    · rw [show collapseAux true (a :: rest) = a :: collapseAux false rest by
        simp [collapseAux, ha]] at h
      simp only [List.head?_cons, Option.some.injEq] at h
      exact h ▸ ha


theorem collapseAux_noDouble (l : List Char) : ∀ b, hasDoubleNL (collapseAux b l) = false := by
  induction l with
  | nil => intro b; simp [collapseAux, hasDoubleNL]
  | cons a rest ih =>
    intro b
    by_cases ha : a = '\n'
    · subst ha
      cases b with
      | true =>
        rw [show collapseAux true ('\n' :: rest) = collapseAux true rest by
          simp [collapseAux]]
        exact ih true
      | false =>
        rw [show collapseAux false ('\n' :: rest) = '\n' :: collapseAux true rest by
          simp [collapseAux]]
        cases hX : collapseAux true rest with
        | nil => simp [hasDoubleNL]
        | cons x t =>
          have hx : x ≠ '\n' := collapseAux_true_head rest x (by rw [hX]; rfl)
          rw [hasDoubleNL_cons_cons, ← hX]
          simp [hx, ih true]
    · rw [show collapseAux b (a :: rest) = a :: collapseAux false rest by
        simp [collapseAux, ha]]
      cases hY : collapseAux false rest with
      | nil => simp [hasDoubleNL]
      | cons y t =>
        rw [hasDoubleNL_cons_cons, ← hY]
        simp [ha, ih false]


theorem collapseAux_true_eq_nil (l : List Char) :
    collapseAux true l = [] → l.all (fun c => c = '\n') = true := by
  induction l with
  | nil => simp
  | cons a rest ih =>
    intro h
    by_cases ha : a = '\n'
    · subst ha
      rw [show collapseAux true ('\n' :: rest) = collapseAux true rest by
        simp [collapseAux]] at h
      simp [List.all_cons, ih h]
    · rw [show collapseAux true (a :: rest) = a :: collapseAux false rest by
        simp [collapseAux, ha]] at h
      simp at h


theorem endsNL_of_all_nl (l : List Char) :
    l ≠ [] → l.all (fun c => c = '\n') = true → endsNL l = true := by
  induction l with
  | nil => simp
  | cons a rest ih =>
    intro _ h
    simp only [List.all_cons, Bool.and_eq_true, decide_eq_true_eq] at h
    cases rest with
    | nil => simp [endsNL, h.1]
    | cons b t =>
      rw [endsNL_cons_cons]
      exact ih (by simp) (by simpa using h.2)


theorem collapseAux_endsNL (l : List Char) :
    ∀ b, endsNL (collapseAux b l) = true → endsNL l = true := by
  induction l with
  | nil => intro b h; simpa [collapseAux] using h
  | cons a rest ih =>
    intro b h
    by_cases ha : a = '\n'
    · subst ha
      cases b with
      | true =>
        rw [show collapseAux true ('\n' :: rest) = collapseAux true rest by
          simp [collapseAux]] at h
        have hr := ih true h
        cases rest with
        | nil => simp [endsNL] at hr
        | cons x t => rw [endsNL_cons_cons]; exact hr
      | false =>
        rw [show collapseAux false ('\n' :: rest) = '\n' :: collapseAux true rest by
          simp [collapseAux]] at h
        cases hX : collapseAux true rest with
        | nil =>
          cases rest with
          | nil => simp [endsNL]
          | cons y t =>
            rw [endsNL_cons_cons]
            exact endsNL_of_all_nl (y :: t) (by simp) (collapseAux_true_eq_nil _ hX)
        | cons x t =>
          rw [hX, endsNL_cons_cons] at h
          have hr := ih true (by rw [hX]; exact h)
          cases rest with
          | nil => simp [endsNL] at hr
          | cons y t2 => rw [endsNL_cons_cons]; exact hr
    · rw [show collapseAux b (a :: rest) = a :: collapseAux false rest by
        simp [collapseAux, ha]] at h
      cases hY : collapseAux false rest with
      | nil => rw [hY] at h; simp [endsNL, ha] at h
      | cons y t =>
        rw [hY, endsNL_cons_cons] at h
        have hr := ih false (by rw [hY]; exact h)
        cases rest with
        | nil => simp [endsNL] at hr
        | cons z t2 => rw [endsNL_cons_cons]; exact hr


theorem replaceCRLF_ne_nil (l : List Char) (h : l ≠ []) : replaceCRLF l ≠ [] := by
  match l with
  | [c] => simp [replaceCRLF]
  | c1 :: c2 :: rest =>
    by_cases hp : c1 = '\r' ∧ c2 = '\n' <;> simp [replaceCRLF, hp]


theorem replaceCRLF_endsNL : ∀ l : List Char, endsNL (replaceCRLF l) = endsNL l
  | [] => rfl
  | [c] => rfl
  | c1 :: c2 :: rest => by
    by_cases hp : c1 = '\r' ∧ c2 = '\n'
    · rw [show replaceCRLF (c1 :: c2 :: rest) = '\n' :: replaceCRLF rest by
        simp [replaceCRLF, hp]]
      obtain ⟨rfl, rfl⟩ := hp
      cases hX : replaceCRLF rest with
      | nil =>
        have hrest : rest = [] := by
          by_contra hne
          exact replaceCRLF_ne_nil rest hne hX
        subst hrest
        decide
      | cons x t =>
        have hrest : rest ≠ [] := by
          intro hr; subst hr; simp [replaceCRLF] at hX
        rw [endsNL_cons_cons, ← hX, replaceCRLF_endsNL rest, endsNL_cons_cons]
        cases rest with
        | nil => simp at hrest
        | cons y t2 => rw [endsNL_cons_cons]
    · rw [show replaceCRLF (c1 :: c2 :: rest) = c1 :: replaceCRLF (c2 :: rest) by
        simp [replaceCRLF, hp]]
      have hne : replaceCRLF (c2 :: rest) ≠ [] := replaceCRLF_ne_nil _ (by simp)
      cases hX : replaceCRLF (c2 :: rest) with
      | nil => exact absurd hX hne
      | cons x t =>
        rw [endsNL_cons_cons, ← hX, replaceCRLF_endsNL (c2 :: rest), endsNL_cons_cons]


theorem endsNL_iff (l : List Char) : endsNL l = true ↔ l.getLast? = some '\n' := by
  induction l with
  | nil => simp [endsNL]
  | cons a rest ih =>
    cases rest with
    | nil => simp [endsNL]
    | cons b t => rw [endsNL_cons_cons, List.getLast?_cons_cons]; exact ih


theorem dropWhile_head_not (p : Char → Bool) (l : List Char) (a : Char) :
    (l.dropWhile p).head? = some a → p a = false := by
  intro h
  induction l with
  | nil => simp [List.dropWhile] at h
  | cons c rest ih =>
    rw [List.dropWhile_cons] at h
    split at h
    · exact ih h
    · simp_all


theorem pythonStrip_endsNL (l : List Char) : endsNL (pythonStrip l) = false := by
  rw [Bool.eq_false_iff]
  intro h
  rw [endsNL_iff, pythonStrip, List.getLast?_reverse] at h
  have := dropWhile_head_not isSpaceChar _ _ h
  simp [isSpaceChar] at this


theorem shrink_line_endsNL (l : List Char) : endsNL (shrink_line l) = false := by
  rw [shrink_line]
  split
  · rfl
  · rw [Bool.eq_false_iff]
    intro h
    have h2 := collapseAux_endsNL _ false h
    rw [replaceCRLF_endsNL, pythonStrip_endsNL] at h2
    exact Bool.false_ne_true h2


theorem shrink_line_noDouble (l : List Char) : hasDoubleNL (shrink_line l) = false := by
  rw [shrink_line]
  split
  · rfl
  · exact collapseAux_noDouble _ false


theorem html_unescape_no_amp (l : List Char) (h : '&' ∉ l) : html_unescape l = l := by
  induction l with
  | nil => rfl
  | cons c rest ih =>
    have hc : c ≠ '&' := by
      intro e; exact h (e ▸ List.mem_cons_self c rest)
    have hr : '&' ∉ rest := fun m => h (List.mem_cons_of_mem c m)
    rw [show html_unescape (c :: rest) = c :: html_unescape rest by
      rw [html_unescape.eq_def]; simp [hc]]
    rw [ih hr]


theorem escapeReserved_eq_flatMap (l : List Char) :
    escapeReserved l = l.flatMap (fun c => if isReserved c then ['\\', c] else [c]) := by
  induction l with
  | nil => rfl
  | cons c rest ih =>
    by_cases h : isReserved c <;> simp [escapeReserved, h, List.flatMap_cons, ih]


theorem escapeReserved_id (l : List Char) (h : ∀ c ∈ l, isReserved c = false) :
    escapeReserved l = l := by
  induction l with
  | nil => rfl
  | cons c rest ih =>
    have hc := h c (List.mem_cons_self c rest)
    rw [escapeReserved, ih fun d hd => h d (List.mem_cons_of_mem _ hd)]
    simp [hc]


/-- C3 counterexample: for the raw content string "a" the derived
`content_markdown` is "a", which does not end with a newline character at
all — the trailing newline appended inside `content_markdown` is stripped
again by the final `shrink_line`, so the claimed "ends with exactly one
trailing newline" is false. -/
theorem content_markdown_newline_cex :
    content_markdown_of "a".toList = "a".toList ∧
    endsNL (content_markdown_of "a".toList) = false := by
  constructor
  · decide
  · decide


/-- C3 (amended): for every raw content string, the derived
`content_markdown` contains no run of two or more consecutive newline
characters, and it does not end with a newline (the newline appended by
`content_markdown` is removed by the final `shrink_line`, whose `strip()`
drops trailing whitespace). -/
theorem content_markdown_shape (raw : List Char) :
    hasDoubleNL (content_markdown_of raw) = false ∧
    endsNL (content_markdown_of raw) = false := by
  unfold content_markdown_of cmFromContent
  exact ⟨shrink_line_noDouble _, shrink_line_endsNL _⟩


/-- C8 counterexample: the string "&gt;" contains no character of the
reserved set, yet `escape_markdown` is not idempotent on it: the first
application HTML-unescapes it to ">" and escapes that to "\>", and the
second application escapes the backslash and the ">" again. -/
theorem escape_markdown_idem_cex :
    (∀ c ∈ "&gt;".toList, isReserved c = false) ∧
    escape_markdown (escape_markdown "&gt;".toList) ≠ escape_markdown "&gt;".toList := by
  constructor
  · decide
  · decide


/-- C8 (amended): `escape_markdown` first applies `html.unescape`. On any
input free of the entity-introducing character `&`, it prefixes each
occurrence of a reserved character with exactly one backslash (it equals
the character-wise escaping map); and on inputs additionally free of the
reserved character set it is the identity, hence idempotent. On inputs
with HTML entities (such as "&gt;") idempotence fails. -/
theorem escape_markdown_escapes (l : List Char) (hamp : '&' ∉ l) :
    escape_markdown l = l.flatMap (fun c => if isReserved c then ['\\', c] else [c]) ∧
    ((∀ c ∈ l, isReserved c = false) →
      escape_markdown l = l ∧
      escape_markdown (escape_markdown l) = escape_markdown l) := by
  have hmain : escape_markdown l =
      l.flatMap (fun c => if isReserved c then ['\\', c] else [c]) := by
    rw [escape_markdown]
    split
    · subst l; rfl
    · rw [html_unescape_no_amp l hamp, escapeReserved_eq_flatMap]
  refine ⟨hmain, fun hres => ?_⟩
  have hid : escape_markdown l = l := by
    rw [escape_markdown]
    split
    · next h => exact h.symm
    · rw [html_unescape_no_amp l hamp, escapeReserved_id l hres]
  exact ⟨hid, by rw [hid, hid]⟩


theorem mem_take_takeWhile (p : Char → Bool) (T : List Char) :
    ∀ k, k ≤ (T.takeWhile p).length → ∀ x ∈ T.take k, p x = true := by
  induction T with
  | nil => intro k h x hx; simp at hx
  | cons c T2 ih =>
    intro k h x hx
    cases k with
    | zero => simp at hx
    | succ k =>
      rw [List.takeWhile_cons] at h
      by_cases hc : p c
      · rw [if_pos hc] at h
        simp only [List.length_cons] at h
        rw [List.take_succ_cons] at hx
        rcases List.mem_cons.mp hx with rfl | hx2
        · exact hc
        · exact ih k (Nat.le_of_succ_le_succ h) x hx2
      · rw [if_neg hc] at h
        simp at h


theorem extAt_shape (l e : List Char) (h : extAt l = some e) :
    ∃ ext, e = '.' :: ext ∧ (ext.length = 3 ∨ ext.length = 4) ∧
      ext.all isWordChar = true := by
  match l with
  | [] => simp [extAt] at h
  | c :: rest =>
    simp only [extAt] at h
    split_ifs at h with hc h4 h3
    · exact ⟨rest.take 4, (Option.some.inj h).symm, Or.inr h4.1, h4.2.1⟩
    · exact ⟨rest.take 3, (Option.some.inj h).symm, Or.inl h3.1, h3.2.1⟩


theorem segMatch_shape (T g : List Char) (h : segMatch T = some g) :
    ∃ stem ext, g = stem ++ '.' :: ext ∧ (ext.length = 3 ∨ ext.length = 4) ∧
      ext.all isWordChar = true ∧ ∀ x ∈ stem, x ≠ '/' := by
  rw [segMatch] at h
  obtain ⟨k, hk, he⟩ := List.exists_of_findSome?_eq_some h
  rw [List.mem_reverse, List.mem_range] at hk
  cases hx : extAt (T.drop k) with
  | none => rw [hx] at he; simp at he
  | some e =>
    rw [hx] at he
    simp only [Option.map_some'] at he
    obtain ⟨ext, rfl, hlen, hall⟩ := extAt_shape _ _ hx
    refine ⟨T.take k, ext, ?_, hlen, hall, ?_⟩
    · exact (Option.some.inj he).symm
    · intro x hxmem
      have hp := mem_take_takeWhile (fun c => c ≠ '/') T k
        (Nat.le_of_lt_succ hk) x hxmem
      simpa using hp


theorem findFilename_shape (u : List Char) :
    ∀ g, findFilename u = some g →
      ∃ stem ext, g = stem ++ '.' :: ext ∧ (ext.length = 3 ∨ ext.length = 4) ∧
        ext.all isWordChar = true ∧ ∀ x ∈ stem, x ≠ '/' := by
  induction u with
  | nil => intro g h; simp [findFilename] at h
  | cons c rest ih =>
    intro g h
    simp only [findFilename] at h
    by_cases hc : c = '/'
    · rw [if_pos hc] at h
      cases hs : segMatch rest with
      | some g0 =>
        rw [hs] at h
        simp only [Option.some.injEq] at h
        subst h
        exact segMatch_shape rest g0 hs
      | none =>
        rw [hs] at h
        exact ih g h
    · rw [if_neg hc] at h
      exact ih g h


theorem get_filename_shape (u : List Char) (hne : get_filename u ≠ []) :
    ∃ stem ext, get_filename u = stem ++ '.' :: ext ∧
      (ext.length = 3 ∨ ext.length = 4) ∧ ext.all isWordChar = true ∧
      ∀ x ∈ stem, x ≠ '/' := by
  rw [get_filename]
  cases hf : findFilename u with
  | none => rw [get_filename, hf] at hne; simp at hne
  | some g => exact findFilename_shape u g hf


/-- C9: `mediafilename` is the pointwise filename extraction over the
stored media urls, in the same order and of the same length; with no media
set it is the empty list; and every non-empty extracted filename is a
slash-free stem followed by a dot and a 3-or-4 character word extension. -/
theorem mediafilename_spec (v : List Char ⊕ List (List Char)) (u : List Char)
    (hne : get_filename u ≠ []) :
    (mediafilename_of (wrapMedia v)).length = (wrapMedia v).length ∧
    (∀ i : Nat, (mediafilename_of (wrapMedia v))[i]? =
      ((wrapMedia v)[i]?).map get_filename) ∧
    mediafilename_of [] = [] ∧
    ∃ stem ext, get_filename u = stem ++ '.' :: ext ∧
      (ext.length = 3 ∨ ext.length = 4) ∧ ext.all isWordChar = true ∧
      ∀ x ∈ stem, x ≠ '/' := by
  refine ⟨?_, ?_, rfl, get_filename_shape u hne⟩
  · rw [mediafilename_of]
    split
    · next hnil => rw [hnil]
    · exact List.length_map _ _
  · intro i
    rw [mediafilename_of]
    split
    · next hnil => rw [hnil]; rfl
    · exact List.getElem?_map get_filename (wrapMedia v) i


/-- C9 witness: the specification applied to a single scalar media url,
checking the wrapped length and the extracted filename concretely. -/
theorem mediafilename_spec_witness :
    get_filename "http://x/a.jpg".toList ≠ [] ∧
    (mediafilename_of (wrapMedia (Sum.inl "http://x/a.jpg".toList))).length =
      (wrapMedia (Sum.inl "http://x/a.jpg".toList)).length :=
  ⟨by decide,
    (mediafilename_spec (Sum.inl "http://x/a.jpg".toList) "http://x/a.jpg".toList
      (by decide)).1⟩


theorem selectBranch_video (t : Nat)
    (ht : t = 8 ∨ t = 512 ∨ (4000 ≤ t ∧ t < 4200)) :
    selectBranch t = Branch.videoLike := by
  rcases ht with rfl | rfl | hr
  · decide
  · decide
  · have h256 : ¬ t = 256 := by omega
    have hlive : ¬ (4200 ≤ t ∧ t < 4300) := by omega
    rw [selectBranch, if_pos (Or.inr (Or.inl (Or.inr (Or.inr hr)))),
      if_neg h256, if_neg hlive, if_pos (Or.inr (Or.inr hr))]


/-- C1 counterexample: the non-forwarded status update with type code 256
is audio-like, so the claimed table derives reply code 11 from its
origin_type; the code instead derives 14 and invokes the comment resolver
with 14. -/
theorem reply_type_table_cex :
    origin_type { ty := 256, orig_type := 0, dynamic_id := 9, rid := 5 } = 256 ∧
    spec_reply_type 256 = some 11 ∧
    reply_type { ty := 256, orig_type := 0, dynamic_id := 9, rid := 5 } = some 14 ∧
    replyCall { ty := 256, orig_type := 0, dynamic_id := 9, rid := 5 } = (5, some 14) ∧
    (some 14 : Option Nat) ≠ some 11 := by
  decide


/-- C1 (amended): the reply-type code is derived from the update's
top-level type (`forward_type`, not `origin_type`) by the fixed table
2→11, 16→5, 64→12, 256→14, {8, 512, 4000–4199}→1,
{1, 4, 4200–4299, 2048–2099}→17, none otherwise; the comment resolver is
invoked with exactly that code (paired with the derived oid), and the code
depends on nothing but `forward_type`. -/
theorem reply_type_from_forward_type (d : DynDesc) :
    replyCall d = (oid d, reply_type d) ∧
    (forward_type d = 2 → reply_type d = some 11) ∧
    (forward_type d = 16 → reply_type d = some 5) ∧
    (forward_type d = 64 → reply_type d = some 12) ∧
    (forward_type d = 256 → reply_type d = some 14) ∧
    (forward_type d = 8 ∨ forward_type d = 512 ∨
      (4000 ≤ forward_type d ∧ forward_type d < 4200) →
      reply_type d = some 1) ∧
    (forward_type d = 1 ∨ forward_type d = 4 ∨
      (4200 ≤ forward_type d ∧ forward_type d < 4300) ∨
      (2048 ≤ forward_type d ∧ forward_type d < 2100) →
      reply_type d = some 17) ∧
    (∀ d2 : DynDesc, forward_type d2 = forward_type d →
      reply_type d2 = reply_type d) := by
  refine ⟨rfl, ?_, ?_, ?_, ?_, ?_, ?_, ?_⟩
  · intro h; simp [reply_type, h]
  · intro h; simp [reply_type, h]
  · intro h; simp [reply_type, h]
  · intro h; simp [reply_type, h]
  · intro h
    rw [reply_type]
    split_ifs <;> first | rfl | (exfalso; omega)
  · intro h
    rw [reply_type]
    split_ifs <;> first | rfl | (exfalso; omega)
  · intro d2 h
    simp only [reply_type, forward_type] at *
    simp only [h]


/-- C1 witness: the amended theorem applied to a concrete audio-like
update, deriving reply code 14 from type 256. -/
theorem reply_type_from_forward_type_witness :
    forward_type { ty := 256, orig_type := 8, dynamic_id := 9, rid := 5 } = 256 ∧
    reply_type { ty := 256, orig_type := 8, dynamic_id := 9, rid := 5 } = some 14 :=
  ⟨by decide,
    (reply_type_from_forward_type
      { ty := 256, orig_type := 8, dynamic_id := 9, rid := 5 }).2.2.2.2.1 (by decide)⟩


/-- C7 counterexample: a status update with origin_type 2 takes the
picture branch of `dynamic_parser`, not the recursive video branch, so the
claimed video recursion for type 2 is false. -/
theorem dynamic_video_type2_cex :
    selectBranch 2 = Branch.pic ∧
    selectBranch 2 ≠ Branch.videoLike ∧
    dispatchAction 2 { new_desc := none, aid := 7, id := 0, roomid := 0 } ≠
      RecAction.recurseVideo 7 := by
  decide


/-- C7 (amended): for every status update whose origin_type is 8, 512, or
in 4000–4199 (the code's VIDEO set, which excludes 2), `dynamic_parser`
recursively invokes the video resolver with the embedded aid, and the
outer feed's content equals the card's own `new_desc` when the card
supplies a non-empty one, else the video sub-feed's content. -/
theorem dynamic_video_dispatch (t : Nat) (c : Card) (sub : List Char)
    (ht : t = 8 ∨ t = 512 ∨ (4000 ≤ t ∧ t < 4200)) :
    selectBranch t = Branch.videoLike ∧
    dispatchAction t c = RecAction.recurseVideo c.aid ∧
    (∀ s, c.new_desc = some s → s ≠ [] → videoBranchContent c sub = s) ∧
    (c.new_desc = none ∨ c.new_desc = some [] → videoBranchContent c sub = sub) := by
  have hbr := selectBranch_video t ht
  refine ⟨hbr, ?_, ?_, ?_⟩
  · simp [dispatchAction, hbr]
  · intro s hs hne
    simp [videoBranchContent, hs, hne]
  · intro hn
    rcases hn with hn | hn <;> simp [videoBranchContent, hn]


/-- C7 witness: the amended dispatch applied to a concrete update of type
8 whose card carries a non-empty description. -/
theorem dynamic_video_dispatch_witness :
    ((8 : Nat) = 8 ∨ (8 : Nat) = 512 ∨ (4000 ≤ (8 : Nat) ∧ (8 : Nat) < 4200)) ∧
    dispatchAction 8 { new_desc := some "d".toList, aid := 7, id := 0, roomid := 0 } =
      RecAction.recurseVideo 7 :=
  ⟨Or.inl rfl,
    (dynamic_video_dispatch 8
      { new_desc := some "d".toList, aid := 7, id := 0, roomid := 0 }
      [] (Or.inl rfl)).2.1⟩


/-- C10: for every status update whose type code is outside every value
enumerated in the reply-type mapping, `reply_type` is none, and the
comment resolver is nevertheless invoked, receiving the missing code
(paired with the derived oid). -/
theorem reply_type_unknown_none (d : DynDesc)
    (h : knownReplyCode (forward_type d) = false) :
    reply_type d = none ∧ replyCall d = (oid d, none) := by
  have hn : reply_type d = none := by
    simp only [knownReplyCode, Bool.or_eq_false_iff, Bool.and_eq_false_iff,
      decide_eq_false_iff_not, not_le, not_lt] at h
    rw [reply_type]
    split_ifs <;> first | rfl | (exfalso; omega)
  exact ⟨hn, by rw [replyCall, hn]⟩


/-- C10 witness: the theorem applied at the spec's example codes 2024 and
4350, both outside the mapping. -/
theorem reply_type_unknown_none_witness :
    knownReplyCode 2024 = false ∧ knownReplyCode 4350 = false ∧
    reply_type { ty := 2024, orig_type := 0, dynamic_id := 3, rid := 4 } = none ∧
    replyCall { ty := 4350, orig_type := 0, dynamic_id := 3, rid := 4 } =
      (4, none) :=
  ⟨by decide, by decide,
    (reply_type_unknown_none { ty := 2024, orig_type := 0, dynamic_id := 3, rid := 4 }
      (by decide)).1,
    (reply_type_unknown_none { ty := 4350, orig_type := 0, dynamic_id := 3, rid := 4 }
      (by decide)).2⟩


/-- C4: a wrapped resolver never lets an exception escape to its caller —
every outcome is a returned value, a feed or an error object; a
non-write-conflict failure on the first attempt is returned without any
retry; and a write-conflict (IntegrityError) on the first attempt re-runs
the whole body exactly once, whose result — value or error of any class —
is then returned. -/
theorem safeWrap_spec {α : Type} (f : Nat → PyResult α) :
    (∃ r, safeWrap f = .ok r) ∧
    (∀ e, f 0 = .exc e → e.cls ≠ ExcClass.integrity →
      safeWrap f = .ok (.inr e)) ∧
    (∀ e a, f 0 = .exc e → e.cls = ExcClass.integrity → f 1 = .ok a →
      safeWrap f = .ok (.inl a)) ∧
    (∀ e e2, f 0 = .exc e → e.cls = ExcClass.integrity → f 1 = .exc e2 →
      safeWrap f = .ok (.inr e2)) := by
  refine ⟨?_, ?_, ?_, ?_⟩
  · rw [safeWrap]
    cases h0 : f 0 with
    | ok a => exact ⟨.inl a, by simp [h0]⟩
    | exc e =>
      by_cases hc : e.cls = ExcClass.integrity
      · cases h1 : f 1 with
        | ok a => exact ⟨.inl a, by simp [h0, hc, h1]⟩
        | exc e2 => exact ⟨.inr e2, by simp [h0, hc, h1]⟩
      · exact ⟨.inr e, by simp [h0, hc]⟩
  · intro e h0 hc
    rw [safeWrap]
    simp [h0, hc]
  · intro e a h0 hc h1
    rw [safeWrap]
    simp [h0, hc, h1]
  · intro e e2 h0 hc h1
    rw [safeWrap]
    simp [h0, hc, h1]


/-- C4 witness: a body whose first attempt raises IntegrityError and whose
retry returns 7 yields the returned value 7. -/
theorem safeWrap_spec_witness :
    retryBody 0 = .exc { cls := ExcClass.integrity } ∧
    ({ cls := ExcClass.integrity } : Exc).cls = ExcClass.integrity ∧
    retryBody 1 = .ok 7 ∧
    safeWrap retryBody = .ok (.inl 7) :=
  ⟨rfl, rfl, rfl,
    (safeWrap_spec retryBody).2.2.1 { cls := ExcClass.integrity } 7 rfl rfl rfl⟩


/-- C5: the batch result has exactly one slot per input url; slot i is the
resolver's result on the normalized url i alone — so the order matches the
input order and no slot's outcome (feed or error) depends on any other
slot; and a scheme-less url is normalized by prefixing "http://". -/
theorem biliparser_slots {α : Type} (resolve : List Char → α ⊕ Exc)
    (urls : List (List Char)) (u : List Char)
    (hu : startsWith "http:".toList u = false ∧
      startsWith "https:".toList u = false) :
    (biliparser resolve urls).length = urls.length ∧
    (∀ i : Nat, (biliparser resolve urls)[i]? =
      (urls[i]?).map fun w => resolve (normalize_url w)) ∧
    normalize_url u = "http://".toList ++ u := by
  refine ⟨List.length_map _ _, fun i => List.getElem?_map _ _ _, ?_⟩
  have hcond : ¬ ((startsWith "http:".toList u ||
      startsWith "https:".toList u) = true) := by
    rw [hu.1, hu.2]
    simp
  rw [normalize_url, if_neg hcond]


/-- C5 witness: the slot theorem applied to a concrete scheme-less url. -/
theorem biliparser_slots_witness :
    (startsWith "http:".toList "t.bilibili.com/2".toList = false ∧
      startsWith "https:".toList "t.bilibili.com/2".toList = false) ∧
    normalize_url "t.bilibili.com/2".toList =
      "http://".toList ++ "t.bilibili.com/2".toList :=
  ⟨by decide,
    (biliparser_slots (fun _ => (Sum.inr { cls := ExcClass.parserExc } : Nat ⊕ Exc))
      ["a".toList] "t.bilibili.com/2".toList (by decide)).2.2⟩


/-- C6: the claim fails on the code — `read_parser`'s freshness lookup
filters with the audio cache's TTL, not the read cache's own: with read
TTL 5 and audio TTL 10, a read row aged 7 time units (created 93, now 100)
is accepted as fresh although it lies outside the read kind's own TTL
window; the bangumi lookup of `video_parser` likewise filters with the
video TTL instead of a bangumi TTL. -/
theorem read_fresh_uses_audio_ttl :
    read_fresh ⟨10, 5, 5, 5, 5, 5, 5⟩ 100 93 = true ∧
    ¬ ((100 : Int) - 5 ≤ 93) ∧
    bangumi_fresh ⟨5, 5, 5, 5, 5, 5, 10⟩ 100 93 = true ∧
    audio_fresh ⟨10, 5, 5, 5, 5, 5, 5⟩ 100 93 = true := by
  decide


theorem lookup_map_ne (l : List (Nat × FeedMem)) (i j : Nat) (fm : FeedMem)
    (h : i ≠ j) :
    (l.map fun p => if p.1 = j then (j, fm) else p).lookup i = l.lookup i := by
  induction l with
  | nil => rfl
  | cons p t ih =>
    simp only [List.map_cons]
    by_cases hp : p.1 = j
    · rw [if_pos hp]
      simp only [List.lookup]
      have hij : (i == j) = false := by simp [h]
      have hip : (i == p.1) = false := by simp [hp, h]
      simp only [hij, hip]
      exact ih
    · rw [if_neg hp]
      simp only [List.lookup]
      cases hip : i == p.1
      · simp only [hip]
        exact ih
      · simp only [hip]


theorem lookup_map_self (l : List (Nat × FeedMem)) (i : Nat) (fm : FeedMem) :
    (l.map fun p => if p.1 = i then (i, fm) else p).lookup i =
      if (l.lookup i).isSome then some fm else none := by
  induction l with
  | nil => rfl
  | cons p t ih =>
    simp only [List.map_cons]
    by_cases hp : p.1 = i
    · rw [if_pos hp]
      simp only [List.lookup]
      have hii : (i == i) = true := by simp
      have hip : (i == p.1) = true := by simp [hp]
      simp only [hii, hip]
      simp
    · rw [if_neg hp]
      simp only [List.lookup]
      have hip : (i == p.1) = false := by
        simp only [beq_eq_false_iff_ne]
        exact fun e => hp e.symm
      simp only [hip]
      exact ih


theorem getFeed_setFeed_ne (w : World) (i j : Nat) (fm : FeedMem) (h : i ≠ j) :
    getFeed (setFeed w j fm) i = getFeed w i := by
  unfold getFeed setFeed
  simp only
  rw [lookup_map_ne _ _ _ _ h]


theorem getFeed_setFeed_self (w : World) (i : Nat) (fm : FeedMem)
    (h : (w.feeds.lookup i).isSome = true) :
    getFeed (setFeed w i fm) i = fm := by
  unfold getFeed setFeed
  simp only
  rw [lookup_map_self, if_pos h]
  rfl


theorem getFeed_congr {w1 w2 : World} (h : w1.feeds = w2.feeds) (i : Nat) :
    getFeed w1 i = getFeed w2 i := by
  unfold getFeed
  rw [h]


theorem key_of_cmCache (w : World) (i : Nat) (v : List Char)
    (h : (getFeed w i).cmCache = some v) :
    (w.feeds.lookup i).isSome = true := by
  unfold getFeed at h
  cases hl : w.feeds.lookup i
  · rw [hl] at h; simp at h
  · rfl


theorem key_of_mfCache (w : World) (i : Nat) (v : List (List Char))
    (h : (getFeed w i).mfCache = some v) :
    (w.feeds.lookup i).isSome = true := by
  unfold getFeed at h
  cases hl : w.feeds.lookup i
  · rw [hl] at h; simp at h
  · rfl


theorem readContentRes_feeds (w : World) (i : Nat) :
    ((readContentRes w i).2).feeds = w.feeds := by
  rcases hs : w.cSlot with _ | ⟨j, v⟩
  · simp [readContentRes, hs]
  · by_cases hj : j = i <;> simp [readContentRes, hs, hj]


theorem readContentRes_mSlot (w : World) (i : Nat) :
    ((readContentRes w i).2).mSlot = w.mSlot := by
  rcases hs : w.cSlot with _ | ⟨j, v⟩
  · simp [readContentRes, hs]
  · by_cases hj : j = i <;> simp [readContentRes, hs, hj]


theorem readMediaRes_feeds (w : World) (i : Nat) :
    ((readMediaRes w i).2).feeds = w.feeds := by
  rcases hs : w.mSlot with _ | ⟨j, v⟩
  · simp [readMediaRes, hs]
  · by_cases hj : j = i <;> simp [readMediaRes, hs, hj]


theorem readMediaRes_cSlot (w : World) (i : Nat) :
    ((readMediaRes w i).2).cSlot = w.cSlot := by
  rcases hs : w.mSlot with _ | ⟨j, v⟩
  · simp [readMediaRes, hs]
  · by_cases hj : j = i <;> simp [readMediaRes, hs, hj]


theorem readCMRes_mSlot (w : World) (i : Nat) :
    ((readCMRes w i).2).mSlot = w.mSlot := by
  cases hc : (getFeed w i).cmCache
  · simp only [readCMRes, hc]
    rw [show (setFeed (readContentRes w i).2 i
      { getFeed (readContentRes w i).2 i with
        cmCache := some (cmFromContent (readContentRes w i).1) }).mSlot =
      ((readContentRes w i).2).mSlot from rfl]
    exact readContentRes_mSlot w i
  · simp [readCMRes, hc]


theorem readMFRes_cSlot (w : World) (i : Nat) :
    ((readMFRes w i).2).cSlot = w.cSlot := by
  cases hc : (getFeed w i).mfCache
  · simp only [readMFRes, hc]
    rfl
  · simp [readMFRes, hc]


theorem readMFRes_mSlot (w : World) (i : Nat) :
    ((readMFRes w i).2).mSlot = w.mSlot := by
  cases hc : (getFeed w i).mfCache
  · simp only [readMFRes, hc]
    rfl
  · simp [readMFRes, hc]


theorem readContent_of_slot (w : World) (i : Nat) (v : List Char)
    (h : w.cSlot = some (i, v)) : readContentRes w i = (v, w) := by
  simp [readContentRes, h]


theorem readMedia_of_slot (w : World) (i : Nat) (v : List (List Char))
    (h : w.mSlot = some (i, v)) : readMediaRes w i = (v, w) := by
  simp [readMediaRes, h]


theorem readCM_of_cache (w : World) (i : Nat) (v : List Char)
    (h : (getFeed w i).cmCache = some v) : readCMRes w i = (v, w) := by
  simp [readCMRes, h]


theorem readMF_of_cache (w : World) (i : Nat) (v : List (List Char))
    (h : (getFeed w i).mfCache = some v) : readMFRes w i = (v, w) := by
  simp [readMFRes, h]


theorem readContent_sets_slot (w : World) (i : Nat) :
    ((readContentRes w i).2).cSlot = some (i, (readContentRes w i).1) := by
  rcases hs : w.cSlot with _ | ⟨j, v⟩
  · simp [readContentRes, hs]
  · by_cases hj : j = i <;> simp [readContentRes, hs, hj]


theorem readMedia_sets_slot (w : World) (i : Nat) :
    ((readMediaRes w i).2).mSlot = some (i, (readMediaRes w i).1) := by
  rcases hs : w.mSlot with _ | ⟨j, v⟩
  · simp [readMediaRes, hs]
  · by_cases hj : j = i <;> simp [readMediaRes, hs, hj]


theorem readCM_sets_cache (w : World) (i : Nat)
    (hkey : (w.feeds.lookup i).isSome = true) :
    (getFeed ((readCMRes w i).2) i).cmCache = some ((readCMRes w i).1) := by
  cases hc : (getFeed w i).cmCache with
  | some v => rw [readCM_of_cache w i v hc]; exact hc
  | none =>
    simp only [readCMRes, hc]
    rw [getFeed_setFeed_self]
    · rw [readContentRes_feeds]
      exact hkey


theorem readMF_sets_cache (w : World) (i : Nat)
    (hkey : (w.feeds.lookup i).isSome = true) :
    (getFeed ((readMFRes w i).2) i).mfCache = some ((readMFRes w i).1) := by
  cases hc : (getFeed w i).mfCache with
  | some v => rw [readMF_of_cache w i v hc]; exact hc
  | none =>
    simp only [readMFRes, hc]
    rw [getFeed_setFeed_self _ _ _ hkey]


theorem cmCache_step (w : World) (op : Op) (i : Nat) (v : List Char)
    (h : (getFeed w i).cmCache = some v) :
    (getFeed (step w op) i).cmCache = some v := by
  have hkey := key_of_cmCache w i v h
  cases op with
  | setC j s =>
    by_cases hj : j = i
    · subst hj
      simp only [step]
      rw [getFeed_setFeed_self _ _ _ hkey]
      exact h
    · simp only [step]
      rw [getFeed_setFeed_ne _ _ _ _ (Ne.symm hj)]
      exact h
  | setM j mv =>
    by_cases hj : j = i
    · subst hj
      simp only [step]
      rw [getFeed_setFeed_self _ _ _ hkey]
      exact h
    · simp only [step]
      rw [getFeed_setFeed_ne _ _ _ _ (Ne.symm hj)]
      exact h
  | readC j =>
    simp only [step]
    rw [getFeed_congr (readContentRes_feeds w j) i]
    exact h
  | readM j =>
    simp only [step]
    rw [getFeed_congr (readMediaRes_feeds w j) i]
    exact h
  | readCM j =>
    by_cases hj : j = i
    · subst hj
      simp only [step]
      rw [readCM_of_cache w j v h]
      exact h
    · cases hc : (getFeed w j).cmCache with
      | some vj =>
        simp only [step]
        rw [readCM_of_cache w j vj hc]
        exact h
      | none =>
        simp only [step, readCMRes, hc]
        rw [getFeed_setFeed_ne _ _ _ _ (Ne.symm hj)]
        rw [getFeed_congr (readContentRes_feeds w j) i]
        exact h
  | readMF j =>
    by_cases hj : j = i
    · subst hj
      cases hc : (getFeed w j).mfCache with
      | some vj =>
        simp only [step]
        rw [readMF_of_cache w j vj hc]
        exact h
      | none =>
        simp only [step, readMFRes, hc]
        rw [getFeed_setFeed_self _ _ _ hkey]
        exact h
    · cases hc : (getFeed w j).mfCache with
      | some vj =>
        simp only [step]
        rw [readMF_of_cache w j vj hc]
        exact h
      | none =>
        simp only [step, readMFRes, hc]
        rw [getFeed_setFeed_ne _ _ _ _ (Ne.symm hj)]
        exact h


theorem mfCache_step (w : World) (op : Op) (i : Nat) (v : List (List Char))
    (h : (getFeed w i).mfCache = some v) :
    (getFeed (step w op) i).mfCache = some v := by
  have hkey := key_of_mfCache w i v h
  cases op with
  | setC j s =>
    by_cases hj : j = i
    · subst hj
      simp only [step]
      rw [getFeed_setFeed_self _ _ _ hkey]
      exact h
    · simp only [step]
      rw [getFeed_setFeed_ne _ _ _ _ (Ne.symm hj)]
      exact h
  | setM j mv =>
    by_cases hj : j = i
    · subst hj
      simp only [step]
      rw [getFeed_setFeed_self _ _ _ hkey]
      exact h
    · simp only [step]
      rw [getFeed_setFeed_ne _ _ _ _ (Ne.symm hj)]
      exact h
  | readC j =>
    simp only [step]
    rw [getFeed_congr (readContentRes_feeds w j) i]
    exact h
  | readM j =>
    simp only [step]
    rw [getFeed_congr (readMediaRes_feeds w j) i]
    exact h
  | readCM j =>
    cases hc : (getFeed w j).cmCache with
    | some vj =>
      simp only [step]
      rw [readCM_of_cache w j vj hc]
      exact h
    | none =>
      by_cases hj : j = i
      · subst hj
        simp only [step, readCMRes, hc]
        rw [getFeed_setFeed_self]
        · rw [getFeed_congr (readContentRes_feeds w j) j]
          exact h
        · rw [readContentRes_feeds]
          exact hkey
      · simp only [step, readCMRes, hc]
        rw [getFeed_setFeed_ne _ _ _ _ (Ne.symm hj)]
        rw [getFeed_congr (readContentRes_feeds w j) i]
        exact h
  | readMF j =>
    by_cases hj : j = i
    · subst hj
      simp only [step]
      rw [readMF_of_cache w j v h]
      exact h
    · cases hc : (getFeed w j).mfCache with
      | some vj =>
        simp only [step]
        rw [readMF_of_cache w j vj hc]
        exact h
      | none =>
        simp only [step, readMFRes, hc]
        rw [getFeed_setFeed_ne _ _ _ _ (Ne.symm hj)]
        exact h


theorem cSlot_step (w : World) (op : Op) (i : Nat) (v : List Char)
    (hop : foreignRead i op = false) (h : w.cSlot = some (i, v)) :
    (step w op).cSlot = some (i, v) := by
  cases op with
  | setC j s => exact h
  | setM j mv => exact h
  | readC j =>
    have hj : j = i := by simpa [foreignRead] using hop
    subst hj
    simp only [step]
    rw [readContent_of_slot w j v h]
    exact h
  | readM j =>
    simp only [step]
    rw [readMediaRes_cSlot]
    exact h
  | readCM j =>
    have hj : j = i := by simpa [foreignRead] using hop
    subst hj
    cases hc : (getFeed w j).cmCache with
    | some vj =>
      simp only [step]
      rw [readCM_of_cache w j vj hc]
      exact h
    | none =>
      simp only [step, readCMRes, hc]
      rw [show (setFeed ((readContentRes w j).2) j
        { getFeed ((readContentRes w j).2) j with
          cmCache := some (cmFromContent ((readContentRes w j).1)) }).cSlot =
        ((readContentRes w j).2).cSlot from rfl]
      rw [readContent_of_slot w j v h]
      exact h
  | readMF j =>
    simp only [step]
    rw [readMFRes_cSlot]
    exact h


theorem mSlot_step (w : World) (op : Op) (i : Nat) (v : List (List Char))
    (hop : foreignRead i op = false) (h : w.mSlot = some (i, v)) :
    (step w op).mSlot = some (i, v) := by
  cases op with
  | setC j s => exact h
  | setM j mv => exact h
  | readC j =>
    simp only [step]
    rw [readContentRes_mSlot]
    exact h
  | readM j =>
    have hj : j = i := by simpa [foreignRead] using hop
    subst hj
    simp only [step]
    rw [readMedia_of_slot w j v h]
    exact h
  | readCM j =>
    simp only [step]
    rw [readCMRes_mSlot]
    exact h
  | readMF j =>
    simp only [step]
    rw [readMFRes_mSlot]
    exact h


theorem run_pres (P : World → Prop) (ops : List Op) (w : World)
    (hstep : ∀ w2 op, op ∈ ops → P w2 → P (step w2 op)) (h : P w) :
    P (run w ops) := by
  induction ops generalizing w with
  | nil => exact h
  | cons op t ih =>
    rw [run, List.foldl_cons]
    exact ih (step w op)
      (fun w2 o ho => hstep w2 o (List.mem_cons_of_mem _ ho))
      (hstep w op (List.mem_cons_self _ _) h)


/-- C2 counterexample: with two instances (raw contents "a" and "b"), read
instance 1's derived `content` (yields "a"), mutate its raw content to
"c", read instance 2's `content` — which, because `content` is cached with
a class-level `lru_cache(maxsize=1)`, evicts instance 1's entry — and read
instance 1's `content` again: it now yields "c", not the first value "a",
so the claim fails for the derived field `content`. -/
theorem content_lru_cross_instance_cex :
    (readContentRes demoWorld 1).1 = "a".toList ∧
    (readContentRes (run (readContentRes demoWorld 1).2
        [Op.setC 1 "c".toList, Op.readC 2]) 1).1 = "c".toList ∧
    "c".toList ≠ "a".toList := by
  refine ⟨by decide, by decide, by decide⟩


/-- C2 (amended): derived fields backed by `functools.cached_property`
(modelled by the representatives `content_markdown` and `mediafilename`)
never change after their first read, whatever operations — raw-field
mutations or derived-field reads on any instance — happen in between; the
fields backed by `@property @lru_cache(maxsize=1)` (`content` and
`mediaurls`, and likewise `dynamic.user`/`dynamic.content`) keep their
first-read value only as long as no derived field of a *different*
instance is read in between (raw-field mutations alone, even of the same
instance, do not change them). -/
theorem derived_field_memoization (w : World) (i : Nat) (ops : List Op)
    (hkey : (w.feeds.lookup i).isSome = true) :
    (∀ ops2 : List Op,
      (readCMRes (run (readCMRes w i).2 ops2) i).1 = (readCMRes w i).1) ∧
    (∀ ops2 : List Op,
      (readMFRes (run (readMFRes w i).2 ops2) i).1 = (readMFRes w i).1) ∧
    ((∀ op ∈ ops, foreignRead i op = false) →
      (readContentRes (run (readContentRes w i).2 ops) i).1 =
        (readContentRes w i).1 ∧
      (readMediaRes (run (readMediaRes w i).2 ops) i).1 =
        (readMediaRes w i).1) := by
  refine ⟨?_, ?_, ?_⟩
  · intro ops2
    have h0 := readCM_sets_cache w i hkey
    have hrun := run_pres
      (fun w2 => (getFeed w2 i).cmCache = some ((readCMRes w i).1)) ops2
      ((readCMRes w i).2)
      (fun w2 op _ hp => cmCache_step w2 op i _ hp) h0
    rw [readCM_of_cache _ _ _ hrun]
  · intro ops2
    have h0 := readMF_sets_cache w i hkey
    have hrun := run_pres
      (fun w2 => (getFeed w2 i).mfCache = some ((readMFRes w i).1)) ops2
      ((readMFRes w i).2)
      (fun w2 op _ hp => mfCache_step w2 op i _ hp) h0
    rw [readMF_of_cache _ _ _ hrun]
  · intro hops
    constructor
    · have h0 := readContent_sets_slot w i
      have hrun := run_pres
        (fun w2 => w2.cSlot = some (i, (readContentRes w i).1)) ops
        ((readContentRes w i).2)
        (fun w2 op hop hp => cSlot_step w2 op i _ (hops op hop) hp) h0
      rw [readContent_of_slot _ _ _ hrun]
    · have h0 := readMedia_sets_slot w i
      have hrun := run_pres
        (fun w2 => w2.mSlot = some (i, (readMediaRes w i).1)) ops
        ((readMediaRes w i).2)
        (fun w2 op hop hp => mSlot_step w2 op i _ (hops op hop) hp) h0
      rw [readMedia_of_slot _ _ _ hrun]


/-- C2 witness: the memoization theorem applied to the two-instance demo
world with instance 1, over a raw mutation followed by a same-instance
derived read — reading `content` again still yields the first value. -/
theorem derived_field_memoization_witness :
    (demoWorld.feeds.lookup 1).isSome = true ∧
    foreignRead 1 (Op.setC 1 "c".toList) = false ∧
    foreignRead 1 (Op.readMF 1) = false ∧
    (readContentRes (run (readContentRes demoWorld 1).2
        [Op.setC 1 "c".toList, Op.readMF 1]) 1).1 =
      (readContentRes demoWorld 1).1 :=
  ⟨by decide, by decide, by decide,
    ((derived_field_memoization demoWorld 1
        [Op.setC 1 "c".toList, Op.readMF 1] (by decide)).2.2
      (by decide)).1⟩


/-- C8 witness: the amended theorem applied to the concrete input "abc". -/
theorem escape_markdown_escapes_witness :
    escape_markdown "abc".toList =
      "abc".toList.flatMap (fun c => if isReserved c then ['\\', c] else [c]) ∧
    ((∀ c ∈ "abc".toList, isReserved c = false) →
      escape_markdown "abc".toList = "abc".toList ∧
      escape_markdown (escape_markdown "abc".toList) = escape_markdown "abc".toList) :=
  escape_markdown_escapes "abc".toList (by decide)


end Bili
